import Mathlib

/-!
Formal model of the Eurapo FCU price filler (`src/app.py`).

The program reads a pricelist workbook, builds a lookup table keyed by
normalized `(model, rows)` strings, and annotates an uploaded input table
with `Base Price`, `Row Price`, `Total Price` and `Match Status` columns.

The embedding below translates the core functions of `app.py`:
`norm_model`, `norm_rows`, `_find_column`, `load_pricelist` (sheet
selection and lookup construction) and `price_input_df` (per-row pricing
and column bookkeeping).  Strings are modelled as `List Char`; spreadsheet
cells as the inductive `Cell` (`none` covers both Python `None` and float
`NaN`, the two cases recognised by `pd.isna` in the guards of the source);
dataframes as ordered association lists of named columns; Python `dict`
lookups as functions `NKey → Option PRec`; raising an exception as
returning `Except.error`.  Python whitespace handling (`str.strip`,
`re.sub` over the regex class of whitespace) is modelled over the six
ASCII whitespace characters.
-/

/-- Python's whitespace class (ASCII part): the characters matched by the
regex class used in `re.sub` and stripped by `str.strip`. -/
def pyWs (c : Char) : Bool :=
  c = ' ' || c = '\t' || c = '\n' || c = '\r' || c = '\x0b' || c = '\x0c'

/-- A `Nat` below the surrogate range converts to a `Char` and back. -/
theorem char_toNat_ofNat {n : Nat} (h : n < 0xd800) : (Char.ofNat n).toNat = n := by
  have hv : n.isValidChar := Or.inl h
  rw [Char.ofNat, dif_pos hv]
  rfl

/-- Characters are equal iff their code points are. -/
theorem char_eq_iff_toNat (c d : Char) : c = d ↔ c.toNat = d.toNat := by
  constructor
  · intro h; rw [h]
  · intro h
    have := Char.ofNat_toNat c
    rw [← this, h, Char.ofNat_toNat]

/-- Code-point characterisation of `pyWs`. -/
theorem pyWs_iff (c : Char) : pyWs c = true ↔
    c.toNat = 32 ∨ c.toNat = 9 ∨ c.toNat = 10 ∨ c.toNat = 13 ∨ c.toNat = 11 ∨ c.toNat = 12 := by
  constructor
  · intro h
    simp only [pyWs, Bool.or_eq_true, decide_eq_true_eq] at h
    rcases h with ((((h | h) | h) | h) | h) | h <;> subst h <;> simp [Char.toNat]
  · intro h
    have key : ∀ d : Char, c.toNat = d.toNat → pyWs d = true → pyWs c = true := by
      intro d h1 h2
      rwa [(char_eq_iff_toNat c d).mpr h1]
    rcases h with h | h | h | h | h | h
    · exact key ' ' (by rw [h]; rfl) (by decide)
    · exact key '\t' (by rw [h]; rfl) (by decide)
    · exact key '\n' (by rw [h]; rfl) (by decide)
    · exact key '\r' (by rw [h]; rfl) (by decide)
    · exact key '\x0b' (by rw [h]; rfl) (by decide)
    · exact key '\x0c' (by rw [h]; rfl) (by decide)

/-- Unfolding of core's `Char.toUpper` in terms of code points. -/
theorem toUpper_eq (c : Char) :
    Char.toUpper c = if c.toNat ≥ 97 ∧ c.toNat ≤ 122 then Char.ofNat (c.toNat - 32) else c := rfl

theorem toUpper_toNat (c : Char) (h : 97 ≤ c.toNat ∧ c.toNat ≤ 122) :
    (Char.toUpper c).toNat = c.toNat - 32 := by
  rw [toUpper_eq, if_pos h, char_toNat_ofNat]
  omega

theorem toUpper_toNat_of_not (c : Char) (h : ¬(97 ≤ c.toNat ∧ c.toNat ≤ 122)) :
    (Char.toUpper c).toNat = c.toNat := by
  rw [toUpper_eq, if_neg h]

/-- Upper-casing a character twice is the same as doing it once. -/
theorem up_idem (c : Char) : Char.toUpper (Char.toUpper c) = Char.toUpper c := by
  rw [char_eq_iff_toNat]
  by_cases h : 97 ≤ c.toNat ∧ c.toNat ≤ 122
  · have h1 := toUpper_toNat c h
    have h2 : ¬(97 ≤ (Char.toUpper c).toNat ∧ (Char.toUpper c).toNat ≤ 122) := by omega
    rw [toUpper_toNat_of_not _ h2]
  · have h1 := toUpper_toNat_of_not c h
    have h2 : ¬(97 ≤ (Char.toUpper c).toNat ∧ (Char.toUpper c).toNat ≤ 122) := by omega
    rw [toUpper_toNat_of_not _ h2, h1]

/-- Upper-casing preserves whitespace-ness. -/
theorem up_pyWs (c : Char) : pyWs (Char.toUpper c) = pyWs c := by
  by_cases h : 97 ≤ c.toNat ∧ c.toNat ≤ 122
  · have h1 := toUpper_toNat c h
    rw [Bool.eq_iff_iff, pyWs_iff, pyWs_iff]
    omega
  · rw [toUpper_eq, if_neg h]

/-- Python `str.strip()`: remove leading and trailing whitespace. -/
def stripWs (l : List Char) : List Char :=
  ((l.dropWhile pyWs).reverse.dropWhile pyWs).reverse

/-- Python `re.sub` with the whitespace-run regex and a single-space
replacement: every maximal run of whitespace becomes one space. -/
def collapseWs : List Char → List Char
  | [] => []
  | [c] => if pyWs c then [' '] else [c]
  | c :: d :: cs =>
    if pyWs c then
      if pyWs d then collapseWs (d :: cs)
      else ' ' :: collapseWs (d :: cs)
    else c :: collapseWs (d :: cs)

/-- Python `str.replace` of hyphen by space, one character at a time. -/
def hyphenToSpace (c : Char) : Char :=
  if c = '-' then ' ' else c

/-- Python `re.sub` with the whitespace-run regex and an empty
replacement: delete every whitespace character. -/
def removeWs (l : List Char) : List Char :=
  l.filter (fun c => !pyWs c)

/-- A spreadsheet cell as seen by the program: `none` stands for the
values recognised by the `x is None or (isinstance(x, float) and
pd.isna(x))` guards (Python `None` and float `NaN`), `str` for textual
cells, `num` for numeric cells (modelled as rationals). -/
inductive Cell where
  | none : Cell
  | str : List Char → Cell
  | num : ℚ → Cell
deriving DecidableEq, Repr

/-- Modelled: Python `str()` applied to a numeric cell value.  The exact
decimal rendering of the host float type is not reproduced; any injective
textual rendering serves, since no verified claim normalizes a numeric
key cell. -/
def pyStrNum (q : ℚ) : List Char :=
  (toString q).data

/-- The text the program obtains from a non-null cell via `str(x)`. -/
def cellText : Cell → List Char
  | Cell.none => []
  | Cell.str s => s
  | Cell.num q => pyStrNum q

/-- The string pipeline of `norm_model` (app.py lines 43-46):
`str(x).strip().upper()`, then `replace("-", " ")`, then collapse
whitespace runs and strip again. -/
def normModelStr (s : List Char) : List Char :=
  stripWs (collapseWs (((stripWs s).map Char.toUpper).map hyphenToSpace))

/-- Translation of `norm_model` (app.py lines 34-46): null and NaN map to
the empty string; otherwise strip, uppercase, fold hyphens to spaces,
collapse whitespace runs to single spaces and strip again. -/
def norm_model (x : Cell) : List Char :=
  match x with
  | Cell.none => []
  | _ => normModelStr (cellText x)

/-- Translation of `norm_rows` (app.py lines 49-59): null and NaN map to
the empty string; otherwise strip, uppercase and delete all whitespace. -/
def norm_rows (x : Cell) : List Char :=
  match x with
  | Cell.none => []
  | _ => removeWs ((stripWs (cellText x)).map Char.toUpper)

/-- A column name, as read from a spreadsheet header. -/
abbrev ColName := List Char

/-- A dataframe: an ordered list of named columns (pandas keeps columns
in order and, for the tables this program reads, with unique names). -/
abbrev Df := List (ColName × List Cell)

/-- The ordered list of column names of a dataframe (`df.columns`). -/
def dfCols (df : Df) : List ColName :=
  df.map Prod.fst

/-- Reading one column of a dataframe by exact name. -/
def dfGetCol (df : Df) (name : ColName) : List Cell :=
  match df.find? (fun p => p.1 == name) with
  | Option.none => []
  | some p => p.2

/-- Pandas column assignment `df[name] = vals`: overwrite in place if a
column of that exact name exists, otherwise append a new last column. -/
def dfAssign (df : Df) (name : ColName) (vals : List Cell) : Df :=
  if (dfCols df).contains name then
    df.map (fun p => if p.1 == name then (p.1, vals) else p)
  else df ++ [(name, vals)]

/-- Pandas `df.drop(columns=names, errors="ignore")`. -/
def dfDrop (df : Df) (names : List ColName) : Df :=
  df.filter (fun p => !(names.contains p.1))

/-- Pandas `read_excel(..., nrows=n)`: same header, first `n` rows. -/
def dfHead (n : Nat) (df : Df) : Df :=
  df.map (fun p => (p.1, p.2.take n))

/-- Normalisation applied to a column header inside `_find_column`
(app.py lines 62-69): strip, lowercase, collapse whitespace runs. -/
def headerNorm (c : ColName) : ColName :=
  collapseWs ((stripWs c).map Char.toLower)

/-- Translation of `_find_column`: scan the column names in order and
return the first whose normalised form matches the normalised wanted
name, or `none`. -/
def _find_column (cols : List ColName) (wanted : ColName) : Option ColName :=
  cols.find? (fun c => headerNorm c == headerNorm wanted)

/-- Column-name constants of app.py (lines 14-28). -/
def plModelCol : ColName := "Model".data

def plRowsCol : ColName := "Cooling Rows + Heating Row".data

def plBaseCol : ColName := "Base Price".data

def plRowPriceCol : ColName := "Row Price".data

def inModelCol : ColName := "Model".data

def inRowsCol : ColName := "Cooling Rows + Heating Row".data

def outBaseCol : ColName := "Base Price".data

def outRowPriceCol : ColName := "Row Price".data

def outTotalCol : ColName := "Total Price".data

def outStatusCol : ColName := "Match Status".data

/-- The two scratch columns `price_input_df` adds and drops again. -/
def tmpModelNormCol : ColName := "_model_norm".data

def tmpRowsNormCol : ColName := "_rows_norm".data

/-- A normalized composite key `(model_norm, rows_norm)`. -/
abbrev NKey := List Char × List Char

/-- A price record `(base_price, row_price)`; `none` is an absent field. -/
abbrev PRec := Option ℚ × Option ℚ

/-- The lookup dict built by `load_pricelist`. -/
abbrev Lookup := NKey → Option PRec

/-- One recorded duplicate: key, previously stored record, new record. -/
abbrev Conflict := NKey × PRec × PRec

/-- Modelled: the Python builtin `float()` on a string: surrounding
whitespace is ignored, then an optional sign and decimal digits with an
optional fractional part.  Other accepted spellings of the builtin
(exponents, `inf`, `nan`, underscores) are out of the modelled scope and
treated as errors, as is every non-numeric string. -/
def parseFloat (s : List Char) : Except Unit ℚ :=
  let t0 := stripWs s
  let signed : ℚ × List Char :=
    match t0 with
    | '+' :: r => (1, r)
    | '-' :: r => (-1, r)
    | r => (1, r)
  let intPart := signed.2.takeWhile Char.isDigit
  let rest := signed.2.dropWhile Char.isDigit
  let digitsToNat : List Char → ℕ := fun ds => ds.foldl (fun a c => a * 10 + (c.toNat - 48)) 0
  match rest with
  | [] =>
    if intPart == [] then Except.error () else Except.ok (signed.1 * digitsToNat intPart)
  | '.' :: frac =>
    if frac.all Char.isDigit && !(intPart == [] && frac == []) then
      Except.ok (signed.1 * ((digitsToNat intPart : ℚ) + (digitsToNat frac : ℚ) / (10 ^ frac.length)))
    else Except.error ()
  | _ => Except.error ()

/-- Python `float(cell)`: numbers pass through, strings are parsed,
`None` raises. -/
def pyFloat (c : Cell) : Except Unit ℚ :=
  match c with
  | Cell.num q => Except.ok q
  | Cell.str s => parseFloat s
  | Cell.none => Except.error ()

/-- Pandas `pd.notna` on a cell. -/
def pdNotna (c : Cell) : Bool :=
  match c with
  | Cell.none => false
  | _ => true

/-- One price field of a pricelist row (app.py lines 114-115):
`float(cell) if pd.notna(cell) else None`. -/
def priceField (c : Cell) : Except Unit (Option ℚ) :=
  if pdNotna c then (pyFloat c).map Option.some else Except.ok Option.none

/-- The empty lookup dict. -/
def emptyLookup : Lookup := fun _ => Option.none

/-- Store `v` under `k` in the dict. -/
def lookupInsert (lk : Lookup) (k : NKey) (v : PRec) : Lookup :=
  fun k2 => if k2 = k then some v else lk k2

/-- Body of the `for _, row in df.iterrows()` loop of `load_pricelist`
(app.py lines 112-119), after the price fields have been converted: if
the key is already present with a different record, append a conflict
record; in every case store the new record (last write wins). -/
def insertPL (acc : Lookup × List Conflict) (kv : NKey × PRec) : Lookup × List Conflict :=
  let dupes2 :=
    match acc.1 kv.1 with
    | some old => if old ≠ kv.2 then acc.2 ++ [(kv.1, old, kv.2)] else acc.2
    | Option.none => acc.2
  (lookupInsert acc.1 kv.1 kv.2, dupes2)

/-- One pricelist row: model cell, rows cell, base-price cell,
row-price cell (in the order of the mapped columns). -/
abbrev PLRow := Cell × Cell × Cell × Cell

/-- One iteration of the lookup-building loop on a raw row: convert the
two price cells (either may raise) and insert under the normalized key. -/
def plStep (acc : Lookup × List Conflict) (row : PLRow) :
    Except Unit (Lookup × List Conflict) := do
  let base ← priceField row.2.2.1
  let rowp ← priceField row.2.2.2
  Except.ok (insertPL acc ((norm_model row.1, norm_rows row.2.1), (base, rowp)))

/-- The lookup-building loop of `load_pricelist` (app.py lines 109-119)
over the raw pricelist rows, in sheet order. -/
def build_lookup (rows : List PLRow) : Except Unit (Lookup × List Conflict) :=
  rows.foldlM plStep (emptyLookup, [])

/-- The required pricelist columns (app.py line 83; a Python set whose
iteration order does not affect the all-quantified check). -/
def requiredCols : List ColName :=
  [plModelCol, plRowsCol, plBaseCol, plRowPriceCol]

/-- Python `sorted(required)` as it appears in the error message. -/
def requiredSorted : List ColName :=
  [plBaseCol, plRowsCol, plModelCol, plRowPriceCol]

/-- The per-sheet test of the selection loop (app.py lines 86-90): read a
five-row preview and check that every required column resolves. -/
def sheetHasRequired (df : Df) : Bool :=
  requiredCols.all (fun w => (_find_column (dfCols (dfHead 5 df)) w).isSome)

/-- A named sheet of a workbook. -/
abbrev Sheet := List Char × Df

/-- The sheet-selection loop: first sheet, in workbook order, whose
preview passes the required-column check. -/
def chooseSheet (wb : List Sheet) : Option Sheet :=
  wb.find? (fun p => sheetHasRequired p.2)

/-- The errors `load_pricelist` can raise once the file exists: the
schema scan failed (carrying the sorted required names and the scanned
sheet names, as interpolated into the `ValueError` message), or a price
cell failed to convert to float. -/
inductive LoadErr where
  | schemaNotFound : List ColName → List (List Char) → LoadErr
  | priceParse : LoadErr

/-- Raw rows of the chosen sheet, read through the resolved column
names (app.py lines 101-107 and 112-115).  Column resolution cannot
really miss here because the sheet passed the schema check; the `getD`
fallback mirrors that dead branch harmlessly. -/
def plRowsOf (df : Df) : List PLRow :=
  let cm := (_find_column (dfCols df) plModelCol).getD []
  let cr := (_find_column (dfCols df) plRowsCol).getD []
  let cb := (_find_column (dfCols df) plBaseCol).getD []
  let cp := (_find_column (dfCols df) plRowPriceCol).getD []
  (dfGetCol df cm).zip ((dfGetCol df cr).zip ((dfGetCol df cb).zip (dfGetCol df cp)))

/-- Translation of `load_pricelist` (app.py lines 72-121), after the
file-existence check: scan the sheets for the required schema, then build
the lookup dict and duplicate list from the chosen sheet. -/
def load_pricelist (wb : List Sheet) : Except LoadErr ((Lookup × List Conflict) × List Char) :=
  match chooseSheet wb with
  | Option.none => Except.error (LoadErr.schemaNotFound requiredSorted (wb.map Prod.fst))
  | some sh =>
    match build_lookup (plRowsOf sh.2) with
    | Except.ok res => Except.ok (res, sh.1)
    | Except.error _ => Except.error LoadErr.priceParse

/-- The closed set of per-row match statuses. -/
inductive MStatus where
  | OK : MStatus
  | NOT_FOUND : MStatus
  | INCOMPLETE_PRICE : MStatus
deriving DecidableEq, Repr

/-- The status strings appended to the output table. -/
def statusText : MStatus → List Char
  | MStatus.OK => "OK".data
  | MStatus.NOT_FOUND => "NOT_FOUND".data
  | MStatus.INCOMPLETE_PRICE => "INCOMPLETE_PRICE".data

/-- An optional price written back into a cell (`None` becomes a null
cell, which pandas renders as NaN). -/
def optCell : Option ℚ → Cell
  | Option.none => Cell.none
  | some q => Cell.num q

/-- Body of the pricing loop of `price_input_df` (app.py lines 151-167)
for one normalized key pair: the Python `if val is None or
val == (None, None)` branch is the first two cases, the `base is None or
rowp is None` branch the next two, and the complete-record branch the
last (where `float(base) + float(rowp)` is exact addition since both
values already are floats). -/
def priceOne (lk : Lookup) (m r : List Char) : Option ℚ × Option ℚ × Option ℚ × MStatus :=
  match lk (m, r) with
  | Option.none => (Option.none, Option.none, Option.none, MStatus.NOT_FOUND)
  | some (Option.none, Option.none) => (Option.none, Option.none, Option.none, MStatus.NOT_FOUND)
  | some (some b, Option.none) => (some b, Option.none, Option.none, MStatus.INCOMPLETE_PRICE)
  | some (Option.none, some rp) => (Option.none, some rp, Option.none, MStatus.INCOMPLETE_PRICE)
  | some (some b, some rp) => (some b, some rp, some (b + rp), MStatus.OK)

/-- Translation of `price_input_df` (app.py lines 124-175): resolve the
two input columns case/whitespace-insensitively and raise `ValueError`
naming the missing ones if either is absent; otherwise add the two
normalized scratch columns, classify every row against the lookup dict,
append the four output columns and drop the scratch columns. -/
def price_input_df (input_df : Df) (lk : Lookup) : Except (List ColName) Df :=
  match _find_column (dfCols input_df) inModelCol, _find_column (dfCols input_df) inRowsCol with
  | some cm, some cr =>
    let df1 := dfAssign input_df tmpModelNormCol ((dfGetCol input_df cm).map (fun c => Cell.str (norm_model c)))
    let df2 := dfAssign df1 tmpRowsNormCol ((dfGetCol df1 cr).map (fun c => Cell.str (norm_rows c)))
    let mcells := dfGetCol df2 tmpModelNormCol
    let rcells := dfGetCol df2 tmpRowsNormCol
    let outs := (mcells.zip rcells).map (fun p => priceOne lk (cellText p.1) (cellText p.2))
    let df3 := dfAssign df2 outBaseCol (outs.map (fun o => optCell o.1))
    let df4 := dfAssign df3 outRowPriceCol (outs.map (fun o => optCell o.2.1))
    let df5 := dfAssign df4 outTotalCol (outs.map (fun o => optCell o.2.2.1))
    let df6 := dfAssign df5 outStatusCol (outs.map (fun o => Cell.str (statusText o.2.2.2)))
    Except.ok (dfDrop df6 [tmpModelNormCol, tmpRowsNormCol])
  | om, or2 =>
    Except.error ((if om.isSome then [] else [inModelCol]) ++ (if or2.isSome then [] else [inRowsCol]))

/-- Membership survives `stripWs`. -/
theorem mem_stripWs {c : Char} {l : List Char} (h : c ∈ stripWs l) : c ∈ l := by
  simp only [stripWs, List.mem_reverse] at h
  have h1 : c ∈ (l.dropWhile pyWs).reverse := (List.dropWhile_sublist _).subset h
  rw [List.mem_reverse] at h1
  exact (List.dropWhile_sublist _).subset h1

/-- `collapseWs` passes a leading non-whitespace character through. -/
theorem collapse_cons_of_neg {a : Char} {l : List Char} (h : pyWs a = false) :
    collapseWs (a :: l) = a :: collapseWs l := by
  cases l with
  | nil => simp [collapseWs, h]
  | cons d ds => simp [collapseWs, h]

/-- Elements of a collapsed string are spaces or came from the input. -/
theorem mem_collapseWs {c : Char} {l : List Char} (h : c ∈ collapseWs l) : c = ' ' ∨ c ∈ l := by
  induction l with
  | nil => simp [collapseWs] at h
  | cons a t ih =>
    cases t with
    | nil =>
      by_cases ha : pyWs a
      · simp [collapseWs, ha] at h
        exact Or.inl h
      · simp [collapseWs, ha] at h
        exact Or.inr (by simp [h])
    | cons d ds =>
      by_cases ha : pyWs a
      · by_cases hd : pyWs d
        · simp only [collapseWs, if_pos ha, if_pos hd] at h
          rcases ih h with h1 | h1
          · exact Or.inl h1
          · exact Or.inr (List.mem_cons_of_mem _ h1)
        · simp only [collapseWs, if_pos ha, if_neg hd] at h
          rcases List.mem_cons.mp h with h1 | h1
          · exact Or.inl h1
          · rcases ih h1 with h2 | h2
            · exact Or.inl h2
            · exact Or.inr (List.mem_cons_of_mem _ h2)
      · simp only [collapseWs, if_neg ha] at h
        rcases List.mem_cons.mp h with h1 | h1
        · exact Or.inr (by simp [h1])
        · rcases ih h1 with h2 | h2
          · exact Or.inl h2
          · exact Or.inr (List.mem_cons_of_mem _ h2)

/-- The only whitespace a collapsed string contains is the space. -/
theorem ws_mem_collapseWs {c : Char} {l : List Char} (h : c ∈ collapseWs l)
    (hws : pyWs c = true) : c = ' ' := by
  induction l with
  | nil => simp [collapseWs] at h
  | cons a t ih =>
    cases t with
    | nil =>
      by_cases ha : pyWs a
      · simp [collapseWs, ha] at h
        exact h
      · simp [collapseWs, ha] at h
        rw [h] at hws
        simp [ha] at hws
    | cons d ds =>
      by_cases ha : pyWs a
      · by_cases hd : pyWs d
        · simp only [collapseWs, if_pos ha, if_pos hd] at h
          exact ih h
        · simp only [collapseWs, if_pos ha, if_neg hd] at h
          rcases List.mem_cons.mp h with h1 | h1
          · exact h1
          · exact ih h1
      · simp only [collapseWs, if_neg ha] at h
        rcases List.mem_cons.mp h with h1 | h1
        · rw [h1] at hws
          simp [ha] at hws
        · exact ih h1

/-- No two adjacent whitespace characters. -/
def noAdjWs (l : List Char) : Prop :=
  l.Chain' (fun x y => ¬(pyWs x = true ∧ pyWs y = true))

/-- A collapsed string has no two adjacent whitespace characters. -/
theorem collapseWs_noAdj (l : List Char) : noAdjWs (collapseWs l) := by
  induction l with
  | nil => simp [collapseWs, noAdjWs]
  | cons a t ih =>
    cases t with
    | nil =>
      by_cases ha : pyWs a <;> simp [collapseWs, ha, noAdjWs]
    | cons d ds =>
      by_cases ha : pyWs a
      · by_cases hd : pyWs d
        · simpa only [collapseWs, if_pos ha, if_pos hd] using ih
        · simp only [collapseWs, if_pos ha, if_neg hd]
          rw [noAdjWs, List.chain'_cons']
          refine ⟨?_, ih⟩
          intro y hy
          rw [collapse_cons_of_neg (Bool.not_eq_true _ ▸ hd)] at hy
          simp only [List.head?_cons, Option.mem_def, Option.some.injEq] at hy
          rw [← hy]
          intro hc
          rw [hc.2] at hd
          exact hd rfl
      · simp only [collapseWs, if_neg ha]
        rw [noAdjWs, List.chain'_cons']
        refine ⟨?_, ih⟩
        intro y hy hc
        rw [hc.1] at ha
        exact ha rfl

/-- `noAdjWs` survives dropping a whitespace run from the front. -/
theorem noAdj_dropWhile {l : List Char} (h : noAdjWs l) : noAdjWs (l.dropWhile pyWs) := by
  have hd := List.takeWhile_append_dropWhile (p := pyWs) (l := l)
  rw [noAdjWs, ← hd] at h
  exact (List.chain'_append.mp h).2.1

/-- `noAdjWs` is symmetric under reversal. -/
theorem noAdj_reverse {l : List Char} (h : noAdjWs l) : noAdjWs l.reverse := by
  rw [noAdjWs, List.chain'_reverse]
  exact h.imp (fun a b hab hc => hab ⟨hc.2, hc.1⟩)

/-- `noAdjWs` survives stripping. -/
theorem noAdj_stripWs {l : List Char} (h : noAdjWs l) : noAdjWs (stripWs l) :=
  noAdj_reverse (noAdj_dropWhile (noAdj_reverse (noAdj_dropWhile h)))

/-- A string whose whitespace is single spaces only is a `collapseWs`
fixpoint. -/
theorem collapseWs_eq_self {l : List Char} (h1 : ∀ c ∈ l, pyWs c = true → c = ' ')
    (h2 : noAdjWs l) : collapseWs l = l := by
  induction l with
  | nil => rfl
  | cons a t ih =>
    cases t with
    | nil =>
      by_cases ha : pyWs a
      · have := h1 a (by simp) ha
        simp [collapseWs, ha, this]
      · simp [collapseWs, ha]
    | cons d ds =>
      by_cases ha : pyWs a
      · have hlink := (List.chain'_cons.mp h2).1
        have hd : pyWs d = false := by
          by_contra hcon
          exact hlink ⟨ha, by simpa using hcon⟩
        have haa := h1 a (by simp) ha
        simp only [collapseWs, if_pos ha, hd]
        simp only [Bool.false_eq_true, if_false]
        rw [ih (fun c hc hw => h1 c (List.mem_cons_of_mem _ hc) hw) (List.Chain'.tail h2), haa]
      · simp only [collapseWs, if_neg ha]
        rw [ih (fun c hc hw => h1 c (List.mem_cons_of_mem _ hc) hw) (List.Chain'.tail h2)]

/-- `dropWhile` is the identity when the head fails the predicate. -/
theorem dropWhile_eq_self_of_head {l : List Char}
    (h : ∀ x ∈ l.head?, pyWs x = false) : l.dropWhile pyWs = l := by
  cases l with
  | nil => rfl
  | cons a t =>
    have ha : pyWs a = false := h a rfl
    simp [List.dropWhile_cons, ha]

/-- A string with non-whitespace ends is a `stripWs` fixpoint. -/
theorem stripWs_eq_self {l : List Char} (hh : ∀ x ∈ l.head?, pyWs x = false)
    (hl : ∀ x ∈ l.getLast?, pyWs x = false) : stripWs l = l := by
  rw [stripWs, dropWhile_eq_self_of_head hh, dropWhile_eq_self_of_head ?hr, List.reverse_reverse]
  case hr =>
    intro x hx
    rw [List.head?_reverse] at hx
    exact hl x hx

/-- The first survivor of `dropWhile pyWs` is not whitespace. -/
theorem dropWhile_head_not_py {l : List Char} :
    ∀ x ∈ (l.dropWhile pyWs).head?, pyWs x = false := by
  intro x hx
  induction l with
  | nil => simp at hx
  | cons a t ih =>
    rw [List.dropWhile_cons] at hx
    by_cases ha : pyWs a
    · rw [if_pos ha] at hx
      exact ih hx
    · rw [if_neg ha] at hx
      simp only [List.head?_cons, Option.mem_def, Option.some.injEq] at hx
      rw [← hx]
      simpa using ha

/-- The last character of a stripped string is not whitespace. -/
theorem stripWs_getLast? {l : List Char} : ∀ x ∈ (stripWs l).getLast?, pyWs x = false := by
  intro x hx
  rw [stripWs, List.getLast?_reverse] at hx
  exact dropWhile_head_not_py x hx

/-- The first character of a stripped string is not whitespace. -/
theorem stripWs_head? {l : List Char} : ∀ x ∈ (stripWs l).head?, pyWs x = false := by
  intro x hx
  rw [stripWs, List.head?_reverse] at hx
  by_cases hemp : (l.dropWhile pyWs).reverse.dropWhile pyWs = []
  · rw [hemp] at hx
    simp at hx
  · have hlast : ((l.dropWhile pyWs).reverse.dropWhile pyWs).getLast? =
        (l.dropWhile pyWs).reverse.getLast? := by
      conv_rhs => rw [← List.takeWhile_append_dropWhile (p := pyWs)
        (l := (l.dropWhile pyWs).reverse)]
      rw [List.getLast?_append, List.getLast?_eq_getLast _ hemp]
      rfl
    rw [hlast, List.getLast?_reverse] at hx
    exact dropWhile_head_not_py x hx

/-- Stripping is idempotent. -/
theorem stripWs_idem (l : List Char) : stripWs (stripWs l) = stripWs l :=
  stripWs_eq_self stripWs_head? stripWs_getLast?

/-- After upper-casing and hyphen folding, every character is a
`toUpper` fixpoint. -/
theorem mem_hyUp_toUpper {c : Char} {t : List Char}
    (h : c ∈ (t.map Char.toUpper).map hyphenToSpace) : Char.toUpper c = c := by
  simp only [List.mem_map] at h
  obtain ⟨a, ⟨b, _, hb⟩, ha⟩ := h
  by_cases hd : a = '-'
  · rw [← ha, hyphenToSpace, if_pos hd]
    decide
  · rw [← ha, hyphenToSpace, if_neg hd, ← hb]
    exact up_idem b

/-- After hyphen folding no hyphen remains. -/
theorem mem_hyUp_ne_dash {c : Char} {t : List Char}
    (h : c ∈ (t.map Char.toUpper).map hyphenToSpace) : c ≠ '-' := by
  simp only [List.mem_map] at h
  obtain ⟨a, _, ha⟩ := h
  by_cases hd : a = '-'
  · rw [← ha, hyphenToSpace, if_pos hd]
    decide
  · rw [← ha, hyphenToSpace, if_neg hd]
    exact hd

/-- The output of the strip-collapse pipeline is a fixpoint of the whole
`norm_model` string pipeline as soon as its input has no lowercase letter
and no hyphen. -/
theorem normModelStr_fix {u : List Char} (hupU : ∀ c ∈ u, Char.toUpper c = c)
    (hdashU : ∀ c ∈ u, c ≠ '-') :
    normModelStr (stripWs (collapseWs u)) = stripWs (collapseWs u) := by
  have hup : ∀ c ∈ stripWs (collapseWs u), Char.toUpper c = c := by
    intro c hc
    rcases mem_collapseWs (mem_stripWs hc) with h | h
    · rw [h]
      decide
    · exact hupU c h
  have hdash : ∀ c ∈ stripWs (collapseWs u), c ≠ '-' := by
    intro c hc
    rcases mem_collapseWs (mem_stripWs hc) with h | h
    · rw [h]
      decide
    · exact hdashU c h
  have h1 : stripWs (stripWs (collapseWs u)) = stripWs (collapseWs u) := stripWs_idem _
  have h2 : (stripWs (collapseWs u)).map Char.toUpper = stripWs (collapseWs u) := by
    have := List.map_congr_left (f := Char.toUpper) (g := id) hup
    simpa using this
  have h3 : (stripWs (collapseWs u)).map hyphenToSpace = stripWs (collapseWs u) := by
    have hfix : ∀ c ∈ stripWs (collapseWs u), hyphenToSpace c = id c := by
      intro c hc
      rw [hyphenToSpace, if_neg (hdash c hc)]
      rfl
    have := List.map_congr_left hfix
    simpa using this
  have h4 : collapseWs (stripWs (collapseWs u)) = stripWs (collapseWs u) := by
    refine collapseWs_eq_self ?_ (noAdj_stripWs (collapseWs_noAdj u))
    intro c hc hw
    exact ws_mem_collapseWs (mem_stripWs hc) hw
  show stripWs (collapseWs (((stripWs (stripWs (collapseWs u))).map Char.toUpper).map
    hyphenToSpace)) = stripWs (collapseWs u)
  rw [h1, h2, h3, h4, h1]

/-- The `norm_model` string pipeline is idempotent. -/
theorem normModelStr_idem (s : List Char) :
    normModelStr (normModelStr s) = normModelStr s := by
  have h1 : ∀ c ∈ ((stripWs s).map Char.toUpper).map hyphenToSpace, Char.toUpper c = c :=
    fun c hc => mem_hyUp_toUpper hc
  have h2 : ∀ c ∈ ((stripWs s).map Char.toUpper).map hyphenToSpace, c ≠ '-' :=
    fun c hc => mem_hyUp_ne_dash hc
  exact normModelStr_fix h1 h2

/-- C5, counterexample.  The claim says `norm_model` canonicalizes device
codes so that "ebh-050", "EBH050" and "EBH 50" all normalize to
"EBH 050".  In this program `norm_model` does no zero-padding rewrite:
"EBH050" normalizes to itself, which differs from "EBH 050", refuting the
claimed three-way equality at these concrete inputs. -/
theorem C5_counterexample :
    norm_model (Cell.str "ebh-050".data) = "EBH 050".data ∧
    norm_model (Cell.str "EBH050".data) = "EBH050".data ∧
    norm_model (Cell.str "EBH050".data) ≠ norm_model (Cell.str "ebh-050".data) ∧
    norm_model (Cell.str "EBH050".data) ≠ "EBH 050".data := by
  refine ⟨by decide, by decide, by decide, by decide⟩

/-- C5, amended.  `norm_model` uppercases, folds hyphens to spaces and
collapses whitespace, so "ebh-050" becomes "EBH 050"; it performs no
device-code zero-padding, so "EBH050" and "EBH 50" stay as they are and
the three inputs normalize to three pairwise distinct values. -/
theorem C5_amended :
    norm_model (Cell.str "ebh-050".data) = "EBH 050".data ∧
    norm_model (Cell.str "EBH050".data) = "EBH050".data ∧
    norm_model (Cell.str "EBH 50".data) = "EBH 50".data ∧
    norm_model (Cell.str "ebh-050".data) ≠ norm_model (Cell.str "EBH050".data) ∧
    norm_model (Cell.str "ebh-050".data) ≠ norm_model (Cell.str "EBH 50".data) ∧
    norm_model (Cell.str "EBH050".data) ≠ norm_model (Cell.str "EBH 50".data) := by
  refine ⟨by decide, by decide, by decide, by decide, by decide, by decide⟩

/-- C6.  Model normalization is idempotent: feeding the normalized text
of any cell back through `norm_model` returns it unchanged. -/
theorem C6_norm_model_idem (x : Cell) :
    norm_model (Cell.str (norm_model x)) = norm_model x := by
  cases x with
  | none =>
    show normModelStr [] = []
    rfl
  | str s => exact normModelStr_idem s
  | num q => exact normModelStr_idem (pyStrNum q)

/-- Dropping a whitespace run does not change the whitespace-free part. -/
theorem filter_nonWs_dropWhile (l : List Char) :
    (l.dropWhile pyWs).filter (fun c => !pyWs c) = l.filter (fun c => !pyWs c) := by
  conv_rhs => rw [← List.takeWhile_append_dropWhile (p := pyWs) (l := l)]
  rw [List.filter_append]
  have hnil : (l.takeWhile pyWs).filter (fun c => !pyWs c) = [] := by
    rw [List.filter_eq_nil_iff]
    intro a ha
    simp [List.mem_takeWhile_imp ha]
  rw [hnil, List.nil_append]

/-- Stripping does not change the whitespace-free part. -/
theorem filter_nonWs_stripWs (l : List Char) :
    (stripWs l).filter (fun c => !pyWs c) = l.filter (fun c => !pyWs c) := by
  rw [stripWs, List.filter_reverse, filter_nonWs_dropWhile, List.filter_reverse,
    List.reverse_reverse, filter_nonWs_dropWhile]

/-- Closed form of `norm_rows` on a textual cell: uppercase everything
and delete every whitespace character. -/
theorem norm_rows_char (s : List Char) :
    norm_rows (Cell.str s) = (s.map Char.toUpper).filter (fun c => !pyWs c) := by
  show removeWs ((stripWs s).map Char.toUpper) = _
  rw [removeWs, List.filter_map, List.filter_map]
  congr 1
  have hcong : ∀ l : List Char,
      l.filter ((fun c => !pyWs c) ∘ Char.toUpper) = l.filter (fun c => !pyWs c) := by
    intro l
    apply List.filter_congr
    intro a _
    simp [Function.comp, up_pyWs]
  rw [hcong, filter_nonWs_stripWs, ← hcong]

/-- C9.  Text-mode configuration normalization is total: null and NaN
cells give the empty string, any text is uppercased with all whitespace
removed (so whitespace-only text also gives the empty string), hyphens
are not folded, and "2+1R"-style tokens survive in any letter case and
spacing. -/
theorem C9_norm_rows :
    norm_rows Cell.none = [] ∧
    (∀ s : List Char, norm_rows (Cell.str s) = (s.map Char.toUpper).filter (fun c => !pyWs c)) ∧
    (∀ s : List Char, (∀ c ∈ s, pyWs c = true) → norm_rows (Cell.str s) = []) ∧
    norm_rows (Cell.str " 2 + 1r ".data) = "2+1R".data ∧
    norm_rows (Cell.str "a-b C".data) = "A-BC".data := by
  refine ⟨rfl, norm_rows_char, ?_, by decide, by decide⟩
  intro s hs
  rw [norm_rows_char, List.filter_eq_nil_iff]
  intro a ha
  simp only [List.mem_map] at ha
  obtain ⟨b, hb, hba⟩ := ha
  rw [← hba]
  simp [up_pyWs, hs b hb]

/-- C9, witness: a whitespace-only cell normalizes to the empty string. -/
theorem C9_witness : norm_rows (Cell.str "  \t ".data) = [] :=
  C9_norm_rows.2.2.1 _ (by decide)

/-- `contains` on column-name lists is membership. -/
theorem colContains_iff {l : List ColName} {a : ColName} : l.contains a = true ↔ a ∈ l := by
  rw [List.contains]
  exact List.elem_iff

/-- Assigning a fresh column name appends it. -/
theorem dfAssign_of_not_mem {df : Df} {name : ColName} {vals : List Cell}
    (h : name ∉ dfCols df) : dfAssign df name vals = df ++ [(name, vals)] := by
  rw [dfAssign, if_neg]
  intro hc
  exact h (colContains_iff.mp hc)

/-- Column names after an assignment: unchanged on overwrite, the new
name appended otherwise. -/
theorem dfCols_assign {df : Df} {name : ColName} {vals : List Cell} :
    dfCols (dfAssign df name vals) =
      if name ∈ dfCols df then dfCols df else dfCols df ++ [name] := by
  by_cases h : name ∈ dfCols df
  · rw [if_pos h, dfAssign, if_pos (colContains_iff.mpr h), dfCols, List.map_map]
    apply List.map_congr_left
    intro p _
    by_cases hp : p.1 = name <;> simp [hp]
  · rw [if_neg h, dfAssign_of_not_mem h, dfCols, List.map_append]
    rfl

/-- Reading a column present on the left of an append. -/
theorem dfGetCol_append_left {df rest : Df} {name : ColName} (h : name ∈ dfCols df) :
    dfGetCol (df ++ rest) name = dfGetCol df name := by
  rw [dfGetCol, dfGetCol, List.find?_append]
  have hs : (df.find? (fun p => p.1 == name)).isSome := by
    rw [List.find?_isSome]
    obtain ⟨p, hp, hfst⟩ := List.mem_map.mp h
    exact ⟨p, hp, by simp [hfst]⟩
  obtain ⟨x, hx⟩ := Option.isSome_iff_exists.mp hs
  rw [hx]
  rfl

/-- Reading a column absent on the left of an append. -/
theorem dfGetCol_append_right {df rest : Df} {name : ColName} (h : name ∉ dfCols df) :
    dfGetCol (df ++ rest) name = dfGetCol rest name := by
  rw [dfGetCol, dfGetCol, List.find?_append]
  have hn : df.find? (fun p => p.1 == name) = Option.none := by
    rw [List.find?_eq_none]
    intro p hp
    simp only [beq_iff_eq]
    intro hc
    exact h (by rw [← hc]; exact List.mem_map_of_mem _ hp)
  rw [hn]
  rfl

/-- Reading back the column just assigned gives the assigned values. -/
theorem dfGetCol_assign_self {df : Df} {name : ColName} {vals : List Cell} :
    dfGetCol (dfAssign df name vals) name = vals := by
  by_cases h : name ∈ dfCols df
  · rw [dfAssign, if_pos (colContains_iff.mpr h), dfGetCol, List.find?_map]
    have hpred : ((fun p : ColName × List Cell => p.1 == name) ∘
        (fun p : ColName × List Cell => if p.1 == name then (p.1, vals) else p)) =
        (fun p : ColName × List Cell => p.1 == name) := by
      funext p
      by_cases hp : p.1 = name <;> simp [hp]
    rw [hpred]
    have hs : (df.find? (fun p => p.1 == name)).isSome := by
      rw [List.find?_isSome]
      obtain ⟨p, hp, hfst⟩ := List.mem_map.mp h
      exact ⟨p, hp, by simp [hfst]⟩
    obtain ⟨x, hx⟩ := Option.isSome_iff_exists.mp hs
    have hx1 := List.find?_some hx
    rw [hx]
    simp only at hx1
    rw [beq_iff_eq] at hx1
    simp [hx1]
  · rw [dfAssign_of_not_mem h, dfGetCol_append_right h, dfGetCol]
    simp

/-- Reading any other column is unaffected by an assignment. -/
theorem dfGetCol_assign_ne {df : Df} {name name2 : ColName} {vals : List Cell}
    (h : name2 ≠ name) : dfGetCol (dfAssign df name vals) name2 = dfGetCol df name2 := by
  by_cases hc : name ∈ dfCols df
  · rw [dfAssign, if_pos (colContains_iff.mpr hc), dfGetCol, List.find?_map]
    have hpred : ((fun p : ColName × List Cell => p.1 == name2) ∘
        (fun p : ColName × List Cell => if p.1 == name then (p.1, vals) else p)) =
        (fun p : ColName × List Cell => p.1 == name2) := by
      funext p
      by_cases hp : p.1 = name <;> simp [hp]
    rw [hpred, dfGetCol]
    cases hf : df.find? (fun p => p.1 == name2) with
    | none => rfl
    | some q =>
      have hq1 := List.find?_some hf
      simp only [beq_iff_eq] at hq1
      have hq2 : ¬(q.1 = name) := by
        rw [hq1]
        exact h
      simp [hq2]
  · rw [dfAssign_of_not_mem hc]
    by_cases h2 : name2 ∈ dfCols df
    · exact dfGetCol_append_left h2
    · rw [dfGetCol_append_right h2, dfGetCol, dfGetCol]
      have hn2 : df.find? (fun p => p.1 == name2) = Option.none := by
        rw [List.find?_eq_none]
        intro p hp
        simp only [beq_iff_eq]
        intro hcc
        exact h2 (by rw [← hcc]; exact List.mem_map_of_mem _ hp)
      rw [hn2]
      simp only [Option.none_or]
      rw [List.find?_cons_of_neg, List.find?_nil]
      simp [Ne.symm h]

/-- Dropping names a column does not bear leaves reads unchanged. -/
theorem dfGetCol_drop {df : Df} {names : List ColName} {name : ColName}
    (h : name ∉ names) : dfGetCol (dfDrop df names) name = dfGetCol df name := by
  rw [dfDrop, dfGetCol, dfGetCol]
  induction df with
  | nil => rfl
  | cons p t ih =>
    by_cases hk : names.contains p.1
    · have hpn : ¬(p.1 = name) := by
        intro hc
        exact h (by rw [← hc]; exact colContains_iff.mp hk)
      rw [List.filter_cons]
      simp only [hk, Bool.not_true, Bool.false_eq_true, if_false]
      rw [List.find?_cons, show (p.1 == name) = false by simpa using hpn]
      exact ih
    · rw [List.filter_cons]
      simp only [hk, Bool.not_false, if_true]
      by_cases hpn : p.1 = name
      · rw [List.find?_cons, List.find?_cons, show (p.1 == name) = true by simpa using hpn]
      · rw [List.find?_cons, List.find?_cons, show (p.1 == name) = false by simpa using hpn]
        exact ih

/-- A resolved input column name is never one of the scratch names. -/
theorem resolved_ne_tmp {cols : List ColName} {cr : ColName}
    (hr : _find_column cols inRowsCol = some cr) : cr ≠ tmpModelNormCol := by
  intro hc
  have h1 := List.find?_some hr
  rw [hc] at h1
  simp only [beq_iff_eq] at h1
  exact absurd h1 (by decide)

/-- Successful pricing resolves both input columns and emits, as the
status column, exactly the per-row classification of the normalized key
of each row. -/
theorem price_status_col {df : Df} {lk : Lookup} {out : Df}
    (hok : price_input_df df lk = Except.ok out) :
    ∃ cm cr, _find_column (dfCols df) inModelCol = some cm ∧
      _find_column (dfCols df) inRowsCol = some cr ∧
      dfGetCol out outStatusCol =
        (((dfGetCol df cm).map norm_model).zip ((dfGetCol df cr).map norm_rows)).map
          (fun p => Cell.str (statusText (priceOne lk p.1 p.2).2.2.2)) := by
  cases hm : _find_column (dfCols df) inModelCol with
  | none =>
    rw [price_input_df, hm] at hok
    cases hr : _find_column (dfCols df) inRowsCol <;> rw [hr] at hok <;> exact absurd hok (by simp)
  | some cm =>
    cases hr : _find_column (dfCols df) inRowsCol with
    | none =>
      rw [price_input_df, hm, hr] at hok
      exact absurd hok (by simp)
    | some cr =>
      refine ⟨cm, cr, rfl, rfl, ?_⟩
      rw [price_input_df, hm, hr] at hok
      simp only [Except.ok.injEq] at hok
      subst hok
      rw [dfGetCol_drop (by decide), dfGetCol_assign_self]
      have hcr1 : dfGetCol (dfAssign df tmpModelNormCol
          ((dfGetCol df cm).map (fun c => Cell.str (norm_model c)))) cr = dfGetCol df cr :=
        dfGetCol_assign_ne (resolved_ne_tmp hr)
      rw [dfGetCol_assign_ne (by decide), dfGetCol_assign_self, hcr1, dfGetCol_assign_self]
      simp only [List.zip_map, List.map_map]
      apply List.map_congr_left
      intro p _
      rcases p with ⟨a, b⟩
      rfl

/-- The lookup of the C1 counterexample: one key stored with both price
fields absent (as a pricelist row with two empty price cells produces). -/
def c1Lk : Lookup := lookupInsert emptyLookup ("K".data, "C".data) (Option.none, Option.none)

/-- C1, counterexample.  The claim says a row whose index entry exists
with one or more absent price fields is classified INCOMPLETE_PRICE; but
for an entry with both fields absent the code's `val == (None, None)`
branch yields NOT_FOUND. -/
theorem C1_counterexample :
    c1Lk ("K".data, "C".data) = some (Option.none, Option.none) ∧
    (priceOne c1Lk "K".data "C".data).2.2.2 = MStatus.NOT_FOUND ∧
    MStatus.NOT_FOUND ≠ MStatus.INCOMPLETE_PRICE := by
  refine ⟨by decide, by decide, by decide⟩

/-- C1, amended.  After the whole-table precondition passes, every row's
status is one of OK, NOT_FOUND and INCOMPLETE_PRICE; a key with no index
entry, or whose entry has both price fields absent, yields NOT_FOUND with
all price fields null; an entry with exactly one absent field yields
INCOMPLETE_PRICE with the present field populated and total null; a
complete entry yields OK with total exactly base plus row; total is
non-null exactly on OK rows; and the emitted status column of
`price_input_df` is exactly this per-row classification. -/
theorem C1_amended :
    (∀ (lk : Lookup) (m r : List Char),
      ((priceOne lk m r).2.2.2 = MStatus.OK ∨ (priceOne lk m r).2.2.2 = MStatus.NOT_FOUND ∨
        (priceOne lk m r).2.2.2 = MStatus.INCOMPLETE_PRICE) ∧
      (lk (m, r) = Option.none →
        priceOne lk m r = (Option.none, Option.none, Option.none, MStatus.NOT_FOUND)) ∧
      (lk (m, r) = some (Option.none, Option.none) →
        priceOne lk m r = (Option.none, Option.none, Option.none, MStatus.NOT_FOUND)) ∧
      (∀ b, lk (m, r) = some (some b, Option.none) →
        priceOne lk m r = (some b, Option.none, Option.none, MStatus.INCOMPLETE_PRICE)) ∧
      (∀ rp, lk (m, r) = some (Option.none, some rp) →
        priceOne lk m r = (Option.none, some rp, Option.none, MStatus.INCOMPLETE_PRICE)) ∧
      (∀ b rp, lk (m, r) = some (some b, some rp) →
        priceOne lk m r = (some b, some rp, some (b + rp), MStatus.OK)) ∧
      ((priceOne lk m r).2.2.2 = MStatus.OK ↔ ∃ b rp, (priceOne lk m r).1 = some b ∧
        (priceOne lk m r).2.1 = some rp ∧ (priceOne lk m r).2.2.1 = some (b + rp)) ∧
      ((priceOne lk m r).2.2.2 ≠ MStatus.OK → (priceOne lk m r).2.2.1 = Option.none)) ∧
    (∀ (df : Df) (lk : Lookup) (out : Df), price_input_df df lk = Except.ok out →
      ∃ cm cr, _find_column (dfCols df) inModelCol = some cm ∧
        _find_column (dfCols df) inRowsCol = some cr ∧
        dfGetCol out outStatusCol =
          (((dfGetCol df cm).map norm_model).zip ((dfGetCol df cr).map norm_rows)).map
            (fun p => Cell.str (statusText (priceOne lk p.1 p.2).2.2.2))) := by
  constructor
  · intro lk m r
    rcases h : lk (m, r) with _ | ⟨_ | b, _ | rp⟩ <;>
      simp [priceOne, h]
  · intro df lk out hok
    exact price_status_col hok

/-- The lookup of the C1 witness: one completely priced key. -/
def c1WLk : Lookup := lookupInsert emptyLookup ("M".data, "2".data) (some 100, some 50)

/-- C1, witness: a complete entry is classified OK with the exact sum. -/
theorem C1_witness :
    priceOne c1WLk "M".data "2".data = (some 100, some 50, some 150, MStatus.OK) := by
  have h := (C1_amended.1 c1WLk "M".data "2".data).2.2.2.2.2.1 100 50 (by decide)
  rw [h]
  norm_num

/-- Two concrete pricelist rows with the same key and different prices. -/
def c3Rows : List PLRow :=
  [(Cell.str "K".data, Cell.str "1".data, Cell.num 10, Cell.num 5),
   (Cell.str "K".data, Cell.str "1".data, Cell.num 20, Cell.num 5)]

/-- C3.  Index building iterates rows in sheet order with last-write-wins:
inserting `(K, r1)` then `(K, r2)` leaves `K` bound to `r2`, records
exactly the conflict `(K, r1, r2)` when the records differ and none when
they are identical; and on the concrete rows `[(K, 10), (K, 20)]` the
built index maps the key to 20 with exactly that one conflict. -/
theorem C3_index_determinism (K : NKey) (r1 r2 : PRec) :
    ((List.foldl insertPL (emptyLookup, []) [(K, r1), (K, r2)]).1 K = some r2) ∧
    (r1 ≠ r2 → (List.foldl insertPL (emptyLookup, []) [(K, r1), (K, r2)]).2 = [(K, r1, r2)]) ∧
    (r1 = r2 → (List.foldl insertPL (emptyLookup, []) [(K, r1), (K, r2)]).2 = []) ∧
    (build_lookup c3Rows).toOption.map (fun p => (p.1 ("K".data, "1".data), p.2)) =
      some (some (some 20, some 5),
        [(("K".data, "1".data), (some 10, some 5), (some 20, some 5))]) := by
  refine ⟨?_, ?_, ?_, by rfl⟩
  · show (insertPL (insertPL (emptyLookup, []) (K, r1)) (K, r2)).1 K = some r2
    simp [insertPL, lookupInsert]
  · intro hne
    show (insertPL (insertPL (emptyLookup, []) (K, r1)) (K, r2)).2 = _
    simp [insertPL, lookupInsert, emptyLookup, hne]
  · intro heq
    subst heq
    show (insertPL (insertPL (emptyLookup, []) (K, r1)) (K, r1)).2 = _
    simp [insertPL, lookupInsert, emptyLookup]

/-- C3, witness: the two-row conflict case at concrete records. -/
theorem C3_witness :
    (List.foldl insertPL (emptyLookup, [])
      [((("K".data, "1".data) : NKey), ((some 10, some 5) : PRec)),
       (("K".data, "1".data), (some 20, some 5))]).2 =
      [(("K".data, "1".data), (some 10, some 5), (some 20, some 5))] :=
  (C3_index_determinism ("K".data, "1".data) (some 10, some 5) (some 20, some 5)).2.1
    (by decide)

/-- A price cell that is missing (null/NaN) or numeric. -/
def isMissingOrNum (c : Cell) : Prop :=
  c = Cell.none ∨ ∃ q, c = Cell.num q

/-- The building loop succeeds from any accumulator when every price
cell is missing or numeric. -/
theorem build_ok_of_clean : ∀ (rows : List PLRow) (acc : Lookup × List Conflict),
    (∀ row ∈ rows, isMissingOrNum row.2.2.1 ∧ isMissingOrNum row.2.2.2) →
    ∃ res, rows.foldlM plStep acc = Except.ok res := by
  intro rows
  induction rows with
  | nil => exact fun acc _ => ⟨acc, rfl⟩
  | cons row rest ih =>
    intro acc h
    have hrow := h row (by simp)
    have hb : ∃ ob, priceField row.2.2.1 = Except.ok ob := by
      rcases hrow.1 with hnil | ⟨q, hq⟩
      · rw [hnil]
        exact ⟨Option.none, rfl⟩
      · rw [hq]
        exact ⟨some q, rfl⟩
    have hr2 : ∃ orp, priceField row.2.2.2 = Except.ok orp := by
      rcases hrow.2 with hnil | ⟨q, hq⟩
      · rw [hnil]
        exact ⟨Option.none, rfl⟩
      · rw [hq]
        exact ⟨some q, rfl⟩
    obtain ⟨ob, hob⟩ := hb
    obtain ⟨orp, horp⟩ := hr2
    rw [List.foldlM_cons]
    have hstep : plStep acc row =
        Except.ok (insertPL acc ((norm_model row.1, norm_rows row.2.1), (ob, orp))) := by
      rw [plStep]
      rw [hob, horp]
      rfl
    rw [hstep]
    exact ih _ (fun r hr => h r (List.mem_cons_of_mem _ hr))

/-- C2, amended.  A missing (null/NaN) price cell yields an absent field
(never zero) and a numeric cell its value, so index building succeeds on
every pricelist whose price cells are missing or numeric; a non-numeric
text price cell instead makes `float()` raise, aborting the build. -/
theorem C2_amended :
    priceField Cell.none = Except.ok Option.none ∧
    (∀ q : ℚ, priceField (Cell.num q) = Except.ok (some q)) ∧
    (∀ rows : List PLRow,
      (∀ row ∈ rows, isMissingOrNum row.2.2.1 ∧ isMissingOrNum row.2.2.2) →
      ∃ res, build_lookup rows = Except.ok res) := by
  exact ⟨rfl, fun q => rfl, fun rows h => build_ok_of_clean rows _ h⟩

/-- One pricelist row with a non-numeric text in the base-price column. -/
def c2Rows : List PLRow :=
  [(Cell.str "M".data, Cell.str "2".data, Cell.str "abc".data, Cell.num 5)]

/-- C2, counterexample.  The claim says a non-numeric price cell yields
an absent field and never an exception; but the cell "abc" passes the
`pd.notna` guard, `float("abc")` raises, and the whole build fails. -/
theorem C2_counterexample :
    pdNotna (Cell.str "abc".data) = true ∧
    priceField (Cell.str "abc".data) = Except.error () ∧
    build_lookup c2Rows = Except.error () :=
  ⟨rfl, rfl, rfl⟩

/-- C2, witness: a row with a missing base price and numeric row price
builds successfully. -/
theorem C2_witness :
    ∃ res, build_lookup [((Cell.none, Cell.str "2".data, Cell.none, Cell.num 5) : PLRow)] =
      Except.ok res := by
  apply C2_amended.2.2
  intro row hrow
  simp only [List.mem_singleton] at hrow
  subst hrow
  exact ⟨Or.inl rfl, Or.inr ⟨5, rfl⟩⟩

/-- C4.  If the input table lacks the model or the configuration column
under case/whitespace-insensitive matching, pricing fails with an error
naming exactly the missing required columns; the error is determined by
the header row alone — any table with the same columns fails identically
whatever its rows and whatever lookup index is supplied, so no row is
processed and the index is not consulted. -/
theorem C4_missing_columns (df : Df) (lk : Lookup)
    (h : _find_column (dfCols df) inModelCol = Option.none ∨
         _find_column (dfCols df) inRowsCol = Option.none) :
    ∃ missing : List ColName, missing ≠ [] ∧
      missing = (if (_find_column (dfCols df) inModelCol).isSome then [] else [inModelCol]) ++
        (if (_find_column (dfCols df) inRowsCol).isSome then [] else [inRowsCol]) ∧
      price_input_df df lk = Except.error missing ∧
      (∀ (df2 : Df) (lk2 : Lookup), dfCols df2 = dfCols df →
        price_input_df df2 lk2 = Except.error missing) := by
  cases hm : _find_column (dfCols df) inModelCol with
  | none =>
    cases hr : _find_column (dfCols df) inRowsCol with
    | none =>
      refine ⟨[inModelCol, inRowsCol], by simp, by rfl, ?_, ?_⟩
      · unfold price_input_df
        rw [hm, hr]
        rfl
      · intro df2 lk2 hc
        unfold price_input_df
        rw [hc, hm, hr]
        rfl
    | some cr =>
      refine ⟨[inModelCol], by simp, by rfl, ?_, ?_⟩
      · unfold price_input_df
        rw [hm, hr]
        rfl
      · intro df2 lk2 hc
        unfold price_input_df
        rw [hc, hm, hr]
        rfl
  | some cm =>
    have hr : _find_column (dfCols df) inRowsCol = Option.none := by
      rcases h with h1 | h1
      · rw [hm] at h1
        exact absurd h1 (by simp)
      · exact h1
    refine ⟨[inRowsCol], by simp, by rw [hr]; rfl, ?_, ?_⟩
    · unfold price_input_df
      rw [hm, hr]
      rfl
    · intro df2 lk2 hc
      unfold price_input_df
      rw [hc, hm, hr]
      rfl

/-- A one-column input table with only a model column. -/
def c4Df : Df := [("Model".data, [Cell.str "X".data])]

/-- C4, witness: a table lacking the configuration column errors out,
naming it. -/
theorem C4_witness : price_input_df c4Df emptyLookup = Except.error [inRowsCol] := by
  obtain ⟨missing, _, hmiss, herr, _⟩ :=
    C4_missing_columns c4Df emptyLookup (Or.inr (by rfl))
  have hm : missing = [inRowsCol] := by
    rw [hmiss]
    rfl
  rw [hm] at herr
  exact herr

/-- A row preview keeps the header unchanged. -/
theorem dfCols_dfHead (n : Nat) (df : Df) : dfCols (dfHead n df) = dfCols df := by
  rw [dfCols, dfHead, List.map_map]
  apply List.map_congr_left
  intro p _
  rfl

/-- C7.  The sheet check reads only the header (it is invariant under the
row contents, as only a five-row preview is consulted and only for its
columns); it holds iff the header set is, under case/whitespace-
insensitive comparison, a superset of the required names; the selector
returns the first sheet of the workbook passing the check; and when no
sheet passes, loading fails with the schema error carrying the sorted
required names and all scanned sheet names. -/
theorem C7_sheet_selector (wb : List Sheet) :
    (∀ df df2 : Df, dfCols df = dfCols df2 → sheetHasRequired df = sheetHasRequired df2) ∧
    (∀ df : Df, sheetHasRequired df = true ↔
      ∀ w ∈ requiredCols, ∃ c ∈ dfCols df, headerNorm c = headerNorm w) ∧
    (∀ sh : Sheet, chooseSheet wb = some sh → sheetHasRequired sh.2 = true ∧
      ∃ pre suf, wb = pre ++ sh :: suf ∧ ∀ p ∈ pre, sheetHasRequired p.2 = false) ∧
    (chooseSheet wb = Option.none →
      (∀ p ∈ wb, sheetHasRequired p.2 = false) ∧
      load_pricelist wb =
        Except.error (LoadErr.schemaNotFound requiredSorted (wb.map Prod.fst))) := by
  refine ⟨?_, ?_, ?_, ?_⟩
  · intro df df2 hc
    rw [sheetHasRequired, sheetHasRequired, dfCols_dfHead, dfCols_dfHead, hc]
  · intro df
    rw [sheetHasRequired, List.all_eq_true]
    constructor
    · intro hall w hw
      have h1 := hall w hw
      rw [Option.isSome_iff_exists] at h1
      obtain ⟨c, hc⟩ := h1
      have hmem := List.mem_of_find?_eq_some hc
      have hp := List.find?_some hc
      rw [dfCols_dfHead] at hmem
      exact ⟨c, hmem, beq_iff_eq.mp hp⟩
    · intro hex w hw
      obtain ⟨c, hc, hceq⟩ := hex w hw
      rw [_find_column, List.find?_isSome]
      exact ⟨c, by rw [dfCols_dfHead]; exact hc, by simpa using hceq⟩
  · intro sh h
    rw [chooseSheet] at h
    obtain ⟨h1, pre, suf, heq, hpre⟩ := List.find?_eq_some.mp h
    refine ⟨h1, pre, suf, heq, ?_⟩
    intro p hp
    have := hpre p hp
    simpa using this
  · intro h
    constructor
    · intro p hp
      have := List.find?_eq_none.mp h p hp
      simpa using this
    · unfold load_pricelist
      rw [h]

/-- A one-sheet workbook whose only sheet lacks the required columns. -/
def c7Wb : List Sheet := [("Sheet1".data, [("junk".data, [])])]

/-- C7, witness: on a workbook with no qualifying sheet, loading fails
with the schema error naming the required columns and the scanned
sheets. -/
theorem C7_witness :
    load_pricelist c7Wb =
      Except.error (LoadErr.schemaNotFound requiredSorted (c7Wb.map Prod.fst)) :=
  ((C7_sheet_selector c7Wb).2.2.2 (by decide)).2

/-- Column names after dropping: the kept names in order. -/
theorem dfCols_drop (df : Df) (names : List ColName) :
    dfCols (dfDrop df names) = (dfCols df).filter (fun c => !names.contains c) := by
  rw [dfCols, dfDrop, dfCols]
  induction df with
  | nil => rfl
  | cons p t ih =>
    rw [List.map_cons, List.filter_cons, List.filter_cons]
    cases names.contains p.1 with
    | false =>
      rw [if_pos (show (!false) = true from rfl), if_pos (show (!false) = true from rfl),
        List.map_cons, ih]
    | true =>
      rw [if_neg (show ¬((!true) = true) by decide), if_neg (show ¬((!true) = true) by decide),
        ih]

/-- Column names produced by the assignment chain of `price_input_df`
when none of the six written names is already a column. -/
theorem pipeline_cols (df : Df) (v1 v2 vb vr vt vs : List Cell)
    (h1 : tmpModelNormCol ∉ dfCols df) (h2 : tmpRowsNormCol ∉ dfCols df)
    (hb : outBaseCol ∉ dfCols df) (hrp : outRowPriceCol ∉ dfCols df)
    (ht : outTotalCol ∉ dfCols df) (hs : outStatusCol ∉ dfCols df) :
    dfCols (dfDrop (dfAssign (dfAssign (dfAssign (dfAssign (dfAssign (dfAssign df
      tmpModelNormCol v1) tmpRowsNormCol v2) outBaseCol vb) outRowPriceCol vr)
      outTotalCol vt) outStatusCol vs) [tmpModelNormCol, tmpRowsNormCol]) =
    dfCols df ++ [outBaseCol, outRowPriceCol, outTotalCol, outStatusCol] := by
  have step : ∀ (d : Df) (cols : List ColName) (n : ColName) (v : List Cell),
      dfCols d = cols → n ∉ cols → dfCols (dfAssign d n v) = cols ++ [n] := by
    intro d cols n v hd hn
    rw [dfCols_assign, hd, if_neg hn]
  have cA := step df (dfCols df) tmpModelNormCol v1 rfl h1
  have nB : tmpRowsNormCol ∉ dfCols df ++ [tmpModelNormCol] := by
    intro hc
    rcases List.mem_append.mp hc with hc | hc
    · exact h2 hc
    · simp at hc
      exact absurd hc (by decide)
  have cB := step _ _ tmpRowsNormCol v2 cA nB
  have nC : outBaseCol ∉ (dfCols df ++ [tmpModelNormCol]) ++ [tmpRowsNormCol] := by
    intro hc
    rcases List.mem_append.mp hc with hc | hc
    · rcases List.mem_append.mp hc with hc | hc
      · exact hb hc
      · simp at hc
        exact absurd hc (by decide)
    · simp at hc
      exact absurd hc (by decide)
  have cC := step _ _ outBaseCol vb cB nC
  have nD : outRowPriceCol ∉ ((dfCols df ++ [tmpModelNormCol]) ++ [tmpRowsNormCol]) ++
      [outBaseCol] := by
    intro hc
    rcases List.mem_append.mp hc with hc | hc
    · rcases List.mem_append.mp hc with hc | hc
      · rcases List.mem_append.mp hc with hc | hc
        · exact hrp hc
        · simp at hc
          exact absurd hc (by decide)
      · simp at hc
        exact absurd hc (by decide)
    · simp at hc
      exact absurd hc (by decide)
  have cD := step _ _ outRowPriceCol vr cC nD
  have nE : outTotalCol ∉ (((dfCols df ++ [tmpModelNormCol]) ++ [tmpRowsNormCol]) ++
      [outBaseCol]) ++ [outRowPriceCol] := by
    intro hc
    rcases List.mem_append.mp hc with hc | hc
    · rcases List.mem_append.mp hc with hc | hc
      · rcases List.mem_append.mp hc with hc | hc
        · rcases List.mem_append.mp hc with hc | hc
          · exact ht hc
          · simp at hc
            exact absurd hc (by decide)
        · simp at hc
          exact absurd hc (by decide)
      · simp at hc
        exact absurd hc (by decide)
    · simp at hc
      exact absurd hc (by decide)
  have cE := step _ _ outTotalCol vt cD nE
  have nF : outStatusCol ∉ ((((dfCols df ++ [tmpModelNormCol]) ++ [tmpRowsNormCol]) ++
      [outBaseCol]) ++ [outRowPriceCol]) ++ [outTotalCol] := by
    intro hc
    rcases List.mem_append.mp hc with hc | hc
    · rcases List.mem_append.mp hc with hc | hc
      · rcases List.mem_append.mp hc with hc | hc
        · rcases List.mem_append.mp hc with hc | hc
          · rcases List.mem_append.mp hc with hc | hc
            · exact hs hc
            · simp at hc
              exact absurd hc (by decide)
          · simp at hc
            exact absurd hc (by decide)
        · simp at hc
          exact absurd hc (by decide)
      · simp at hc
        exact absurd hc (by decide)
    · simp at hc
      exact absurd hc (by decide)
  have cF := step _ _ outStatusCol vs cE nF
  rw [dfCols_drop, cF]
  have hkeep : ∀ c ∈ dfCols df,
      (!([tmpModelNormCol, tmpRowsNormCol].contains c)) = true := by
    intro c hcm
    cases hcb : [tmpModelNormCol, tmpRowsNormCol].contains c with
    | false => rfl
    | true =>
      have hmem := colContains_iff.mp hcb
      simp at hmem
      rcases hmem with hh | hh
      · rw [hh] at hcm
        exact absurd hcm h1
      · rw [hh] at hcm
        exact absurd hcm h2
  simp only [List.filter_append, List.filter_eq_self.mpr hkeep]
  simp +decide [List.filter_cons, List.append_assoc]

/-- Reading an untouched input column through the whole assignment and
drop chain of `price_input_df`. -/
theorem pipeline_getCol (df : Df) (v1 v2 vb vr vt vs : List Cell) (c : ColName)
    (h1 : c ≠ tmpModelNormCol) (h2 : c ≠ tmpRowsNormCol) (hb : c ≠ outBaseCol)
    (hrp : c ≠ outRowPriceCol) (ht : c ≠ outTotalCol) (hs : c ≠ outStatusCol) :
    dfGetCol (dfDrop (dfAssign (dfAssign (dfAssign (dfAssign (dfAssign (dfAssign df
      tmpModelNormCol v1) tmpRowsNormCol v2) outBaseCol vb) outRowPriceCol vr)
      outTotalCol vt) outStatusCol vs) [tmpModelNormCol, tmpRowsNormCol]) c =
    dfGetCol df c := by
  have hnot : c ∉ [tmpModelNormCol, tmpRowsNormCol] := by
    intro hc
    simp at hc
    rcases hc with hc | hc
    · exact h1 hc
    · exact h2 hc
  rw [dfGetCol_drop hnot, dfGetCol_assign_ne hs, dfGetCol_assign_ne ht,
    dfGetCol_assign_ne hrp, dfGetCol_assign_ne hb, dfGetCol_assign_ne h2,
    dfGetCol_assign_ne h1]

/-- C8, amended.  When no input column bears one of the four output
names or one of the two scratch names, every output row keeps all
original columns, in order and with their original values, followed by
exactly the four appended columns.  (When an input column does bear one
of those names it is overwritten in place or dropped instead.) -/
theorem C8_amended (df : Df) (lk : Lookup)
    (hdisj : ∀ c ∈ dfCols df, c ≠ outBaseCol ∧ c ≠ outRowPriceCol ∧ c ≠ outTotalCol ∧
      c ≠ outStatusCol ∧ c ≠ tmpModelNormCol ∧ c ≠ tmpRowsNormCol)
    (out : Df) (hok : price_input_df df lk = Except.ok out) :
    dfCols out = dfCols df ++ [outBaseCol, outRowPriceCol, outTotalCol, outStatusCol] ∧
    ∀ c ∈ dfCols df, dfGetCol out c = dfGetCol df c := by
  cases hm : _find_column (dfCols df) inModelCol with
  | none =>
    rw [price_input_df, hm] at hok
    cases hr : _find_column (dfCols df) inRowsCol <;> rw [hr] at hok <;>
      exact absurd hok (by simp)
  | some cm =>
    cases hr : _find_column (dfCols df) inRowsCol with
    | none =>
      rw [price_input_df, hm, hr] at hok
      exact absurd hok (by simp)
    | some cr =>
      rw [price_input_df, hm, hr] at hok
      simp only [Except.ok.injEq] at hok
      subst hok
      have h1 : tmpModelNormCol ∉ dfCols df := fun hmem => ((hdisj _ hmem).2.2.2.2.1) rfl
      have h2 : tmpRowsNormCol ∉ dfCols df := fun hmem => ((hdisj _ hmem).2.2.2.2.2) rfl
      have hb : outBaseCol ∉ dfCols df := fun hmem => ((hdisj _ hmem).1) rfl
      have hrp : outRowPriceCol ∉ dfCols df := fun hmem => ((hdisj _ hmem).2.1) rfl
      have ht : outTotalCol ∉ dfCols df := fun hmem => ((hdisj _ hmem).2.2.1) rfl
      have hs : outStatusCol ∉ dfCols df := fun hmem => ((hdisj _ hmem).2.2.2.1) rfl
      constructor
      · exact pipeline_cols df _ _ _ _ _ _ h1 h2 hb hrp ht hs
      · intro c hc
        exact pipeline_getCol df _ _ _ _ _ _ c ((hdisj _ hc).2.2.2.2.1)
          ((hdisj _ hc).2.2.2.2.2) ((hdisj _ hc).1) ((hdisj _ hc).2.1)
          ((hdisj _ hc).2.2.1) ((hdisj _ hc).2.2.2.1)

/-- An input table that already carries a column named "Base Price". -/
def c8Df : Df :=
  [(inModelCol, [Cell.str "X".data]), (inRowsCol, [Cell.str "1".data]),
   (outBaseCol, [Cell.num 999])]

/-- C8, counterexample.  The claim says every original column survives
with its original values, followed by exactly the four appended columns;
but an input already containing a "Base Price" column is accepted, its
values are overwritten in place, and the output column list is not the
original list followed by the four output names. -/
theorem C8_counterexample :
    (price_input_df c8Df emptyLookup).toOption.map (fun out => dfGetCol out outBaseCol) =
      some [Cell.none] ∧
    dfGetCol c8Df outBaseCol = [Cell.num 999] ∧
    ([Cell.none] : List Cell) ≠ [Cell.num 999] ∧
    (price_input_df c8Df emptyLookup).toOption.map dfCols ≠
      some (dfCols c8Df ++ [outBaseCol, outRowPriceCol, outTotalCol, outStatusCol]) := by
  refine ⟨by rfl, by rfl, by decide, by decide⟩

/-- A clean two-column input table. -/
def c8WDf : Df := [(inModelCol, [Cell.str "X".data]), (inRowsCol, [Cell.str "1".data])]

/-- The priced output of `c8WDf` against the empty index. -/
def c8WOut : Df :=
  [(inModelCol, [Cell.str "X".data]), (inRowsCol, [Cell.str "1".data]),
   (outBaseCol, [Cell.none]), (outRowPriceCol, [Cell.none]), (outTotalCol, [Cell.none]),
   (outStatusCol, [Cell.str "NOT_FOUND".data])]

/-- C8, witness: on a clean input the output is the input plus the four
appended columns, originals preserved. -/
theorem C8_witness :
    dfCols c8WOut = dfCols c8WDf ++ [outBaseCol, outRowPriceCol, outTotalCol, outStatusCol] ∧
    dfGetCol c8WOut inModelCol = dfGetCol c8WDf inModelCol := by
  have h := C8_amended c8WDf emptyLookup (by decide) c8WOut (by rfl)
  exact ⟨h.1, h.2 inModelCol (by decide)⟩

/-- Stripping an all-whitespace string leaves nothing. -/
theorem stripWs_eq_nil_of_ws {s : List Char} (h : ∀ c ∈ s, pyWs c = true) :
    stripWs s = [] := by
  rw [stripWs, List.dropWhile_eq_nil_iff.mpr h]
  rfl

/-- A blank cell: null/NaN, or text made of whitespace only. -/
def cellBlank (c : Cell) : Prop :=
  c = Cell.none ∨ ∃ s, c = Cell.str s ∧ ∀ x ∈ s, pyWs x = true

/-- Both normalizers send blank cells to the empty string. -/
theorem norm_blank {c : Cell} (h : cellBlank c) : norm_model c = [] ∧ norm_rows c = [] := by
  rcases h with h | ⟨s, hcs, hws⟩
  · subst h
    exact ⟨rfl, rfl⟩
  · subst hcs
    constructor
    · show normModelStr s = []
      rw [normModelStr, stripWs_eq_nil_of_ws hws]
      rfl
    · show removeWs ((stripWs s).map Char.toUpper) = []
      rw [stripWs_eq_nil_of_ws hws]
      rfl

/-- A pricelist whose single row has a blank model cell (spaces) and a
null configuration cell, with both prices present. -/
def c10Pl : List PLRow := [(Cell.str "   ".data, Cell.none, Cell.num 100, Cell.num 50)]

/-- The index built from `c10Pl`. -/
def c10Lk : Lookup :=
  match build_lookup c10Pl with
  | Except.ok p => p.1
  | Except.error _ => emptyLookup

/-- C10.  Blank cells normalize to the empty string, which is an
ordinary key component: a pricelist row with blank model and blank
configuration creates the index entry under ("", ""), and any input row
with blank model and configuration cells then matches it and is
classified OK with its prices and exact total. -/
theorem C10_blank_key :
    (∀ c : Cell, cellBlank c → norm_model c = [] ∧ norm_rows c = []) ∧
    build_lookup c10Pl = Except.ok (c10Lk, []) ∧
    c10Lk ([], []) = some (some 100, some 50) ∧
    (∀ c1 c2 : Cell, cellBlank c1 → cellBlank c2 →
      priceOne c10Lk (norm_model c1) (norm_rows c2) =
        (some 100, some 50, some 150, MStatus.OK)) := by
  refine ⟨fun c h => norm_blank h, by rfl, by decide, ?_⟩
  intro c1 c2 h1 h2
  rw [(norm_blank h1).1, (norm_blank h2).2]
  have hlk : c10Lk ([], []) = some (some 100, some 50) := by decide
  unfold priceOne
  rw [hlk]
  norm_num

/-- C10, witness: a space-only model cell and a null configuration cell
match the blank-keyed entry and price OK. -/
theorem C10_witness :
    priceOne c10Lk (norm_model (Cell.str "  ".data)) (norm_rows Cell.none) =
      (some 100, some 50, some 150, MStatus.OK) :=
  C10_blank_key.2.2.2 _ _ (Or.inr ⟨_, rfl, by decide⟩) (Or.inl rfl)
